import Mathlib

/-!
Verification development for the tiered-memory / deduplication subsystem of
the `ai-twitter-base` repository.

Strings from the JavaScript source are modelled as lists of Unicode code
points (`Text := List Nat`).  The regular-expression tests in
`classifyContext` are alternations of literal words (plus one optional
whitespace character in `star\s?wars`), so they are modelled as substring
containment.  Backing stores (MongoDB, Pinecone, the embedding provider)
are collaborators reached through `await`; they are modelled by an explicit
`World` state together with failure flags, and each effectful function is
translated into a function on `World` returning an `Except` result, the
updated `World`, and the trace of collaborator calls it issued.
-/

namespace AiTwitterBase

/-- A JavaScript string, as its list of code points. -/
abbrev Text := List Nat

/-- Code points of a Lean string literal, for writing concrete `Text`s. -/
def str (s : String) : Text := s.data.map Char.toNat

/-- Code points treated as whitespace by ECMAScript `String.prototype.trim`
and by `\s` in regular expressions (WhiteSpace ∪ LineTerminator). -/
def wsCodes : List Nat :=
  [9, 10, 11, 12, 13, 32, 160, 0x1680,
   0x2000, 0x2001, 0x2002, 0x2003, 0x2004, 0x2005, 0x2006, 0x2007,
   0x2008, 0x2009, 0x200a, 0x2028, 0x2029, 0x202f, 0x205f, 0x3000, 0xfeff]

/-- Whether a code point is ECMAScript whitespace. -/
def isJsWS (n : Nat) : Bool := n ∈ wsCodes

/-- `String.prototype.toLowerCase` on one code point (ASCII range, which is
all the classifier's patterns use). -/
def lowerCode (n : Nat) : Nat := if 65 ≤ n ∧ n ≤ 90 then n + 32 else n

/-- `String.prototype.toLowerCase`. -/
def toLower (t : Text) : Text := t.map lowerCode

/-- Drop trailing whitespace. -/
def trimEnd (t : Text) : Text := (t.reverse.dropWhile isJsWS).reverse

/-- `String.prototype.trim`: drop whitespace from both ends. -/
def trim (t : Text) : Text := trimEnd (t.dropWhile isJsWS)

/-- `normalizeQuery` from `src/utils/memory.ts`: `q.trim().toLowerCase()`. -/
def normalizeQuery (t : Text) : Text := toLower (trim t)

/-- One literal alternative of a regex occurs in the text. -/
def containsSub (t pat : Text) : Bool := decide (pat <:+: t)

/-- Some literal alternative of a regex occurs in the text. -/
def containsAny (t : Text) (pats : List Text) : Bool :=
  pats.any (fun p => containsSub t p)

/-- `/(\?|what|why|how|who|when|is|are|do|does|should)/.test q`. -/
def intentTest (t : Text) : Bool :=
  containsAny t [str "?", str "what", str "why", str "how", str "who",
                 str "when", str "is", str "are", str "do", str "does",
                 str "should"]

/-- `/solana|eth|btc|pump\.fun|crypto/.test q`. -/
def cryptoTest (t : Text) : Bool :=
  containsAny t [str "solana", str "eth", str "btc", str "pump.fun", str "crypto"]

/-- `/star\s?wars|mandalorian|jedi|sith|grogu|beskar/.test q`; the `\s?`
makes the first alternative match `starwars` or `star`, one whitespace
code point, `wars`. -/
def starwarsTest (t : Text) : Bool :=
  containsSub t (str "starwars") ||
  wsCodes.any (fun c => containsSub t (str "star" ++ [c] ++ str "wars")) ||
  containsAny t [str "mandalorian", str "jedi", str "sith", str "grogu", str "beskar"]

/-- `/anime|manga|ghibli|otaku/.test q`. -/
def animeTest (t : Text) : Bool :=
  containsAny t [str "anime", str "manga", str "ghibli", str "otaku"]

/-- `/music|song|album|track|playlist/.test q`. -/
def musicTest (t : Text) : Bool :=
  containsAny t [str "music", str "song", str "album", str "track", str "playlist"]

/-- `/movie|film|director|cinema/.test q`. -/
def movieTest (t : Text) : Bool :=
  containsAny t [str "movie", str "film", str "director", str "cinema"]

/-- `/actor|actress|celebrity|famous|idol/.test q`. -/
def celebrityTest (t : Text) : Bool :=
  containsAny t [str "actor", str "actress", str "celebrity", str "famous", str "idol"]

/-- `/tech|software|engineer|developer|app/.test q`. -/
def techTest (t : Text) : Bool :=
  containsAny t [str "tech", str "software", str "engineer", str "developer", str "app"]

/-- `/alien|conspiracy|galaxy|ufo/.test q`. -/
def alienTest (t : Text) : Bool :=
  containsAny t [str "alien", str "conspiracy", str "galaxy", str "ufo"]

/-- `/pop|trend|meme|viral|culture/.test q`. -/
def popcultureTest (t : Text) : Bool :=
  containsAny t [str "pop", str "trend", str "meme", str "viral", str "culture"]

/-- `/hug|love|care|whisper|sweet|friend|heart|smile|lol|haha|funny/.test q`. -/
def empatheticTest (t : Text) : Bool :=
  containsAny t [str "hug", str "love", str "care", str "whisper", str "sweet",
                 str "friend", str "heart", str "smile", str "lol", str "haha",
                 str "funny"]

/-- `/joke|play|tease|fun|wink|lmao|rofl/.test q`. -/
def playfulTest (t : Text) : Bool :=
  containsAny t [str "joke", str "play", str "tease", str "fun", str "wink",
                 str "lmao", str "rofl"]

/-- `/war|battle|honor|duty|survive|fight|serious|code/.test q`. -/
def seriousTest (t : Text) : Bool :=
  containsAny t [str "war", str "battle", str "honor", str "duty", str "survive",
                 str "fight", str "serious", str "code"]

/-- Intent component of a `ContextKey`. -/
inductive Intent where
  | question
  | statement
deriving DecidableEq, Repr

/-- Topic component of a `ContextKey`. -/
inductive Topic where
  | crypto | starwars | anime | music | movie | celebrity | tech | alien
  | popculture | other
deriving DecidableEq, Repr

/-- Tone component of a `ContextKey`. -/
inductive Tone where
  | playful | empathetic | neutral | serious
deriving DecidableEq, Repr

/-- The `{intent, topic, tone}` triple returned by `classifyContext`. -/
structure ContextKey where
  intent : Intent
  topic : Topic
  tone : Tone
deriving DecidableEq, Repr

/-- `classifyContext` from `src/utils/memory.ts`: lower-case the input, then
decide intent, topic (first matching keyword group wins) and tone. -/
def classifyContext (query : Text) : ContextKey :=
  let q := toLower query
  { intent := if intentTest q then .question else .statement
    topic :=
      if cryptoTest q then .crypto
      else if starwarsTest q then .starwars
      else if animeTest q then .anime
      else if musicTest q then .music
      else if movieTest q then .movie
      else if celebrityTest q then .celebrity
      else if techTest q then .tech
      else if alienTest q then .alien
      else if popcultureTest q then .popculture
      else .other
    tone :=
      if empatheticTest q then .empathetic
      else if playfulTest q then .playful
      else if seriousTest q then .serious
      else .neutral }

/-- Whether every literal pattern starts and ends with non-whitespace. -/
def goodPat (p : Text) : Bool :=
  !p.isEmpty && p.head?.all (fun x => !isJsWS x) && p.getLast?.all (fun x => !isJsWS x)

/-- The question markers and interrogative words named by the spec. -/
def interrogativePatterns : List Text :=
  [str "?", str "what", str "why", str "how", str "who", str "when",
   str "is", str "are", str "do", str "does", str "should"]

/-- Spec-side predicate for C10: the text contains (case-insensitively) a
question marker or an interrogative word. -/
def hasInterrogativeMarker (t : Text) : Prop :=
  ∃ p ∈ interrogativePatterns, p <:+: toLower t

instance (t : Text) : Decidable (hasInterrogativeMarker t) :=
  List.decidableBEx _ interrogativePatterns

/-- Abstract handle for an embedding vector returned by the provider. -/
abbrev Emb := Nat

/-- A collaborator failure (a rejected promise at one of the three
backends). -/
inductive MErr where
  | mongoErr
  | embedErr
  | pineErr
deriving DecidableEq, Repr

/-- A `long_term_memory` document as written by `addOrUpdateLongTermMemory`.
Responses are modelled as strings (the only values the engine writes); the
three timestamp fields of the source are collapsed into one `Nat` tick. -/
structure MemoryEntry where
  username : Text
  query : Text
  summary : Text
  response : Text
  intent : Intent
  topic : Topic
  tone : Tone
  cachedAt : Nat
deriving DecidableEq, Repr

/-- Pinecone metadata attached to a vector.  `addOrUpdateLongTermMemory`
never writes a `type` field, so it is optional. -/
structure VectorMeta where
  query : Text
  summary : Text
  response : Text
  intent : Intent
  topic : Topic
  tone : Tone
  type : Option Text
deriving DecidableEq, Repr

/-- A row of the vector index.  The source derives `id` from the normalized
text by base64 (an injective encoding); the model keeps the text itself. -/
structure VectorEntry where
  id : Text
  values : Emb
  metadata : VectorMeta
deriving DecidableEq, Repr

/-- One scored match returned by a Pinecone query. -/
structure PMatch where
  id : Text
  score : ℚ
  metadata : VectorMeta
deriving DecidableEq, Repr

/-- A row of the `tweets` collection written by `storeTweet`. -/
structure TweetRow where
  text : Text
  createdAt : Nat
deriving DecidableEq, Repr

/-- The metadata filter built by `queryPineconeSimilarity`; `type` is
included only when the caller sets it. -/
structure PFilter where
  intent : Intent
  topic : Topic
  tone : Tone
  type : Option Text
deriving DecidableEq, Repr

/-- The state of the collaborators: the two MongoDB collections, the vector
index, failure switches for the fallible calls, the embedding provider
(`none` models a rejected promise), and the similarity scoring of the
index. -/
structure World where
  mongo : List MemoryEntry
  pine : List VectorEntry
  tweets : List TweetRow
  mongoFail : Bool
  pineFail : Bool
  embed : Text → Option Emb
  score : Emb → Emb → ℚ

/-- Trace of collaborator calls issued by an operation. -/
inductive Ev where
  | mongoFind (key : Text)
  | mongoUpsert (key : Text)
  | embedCall (t : Text)
  | pineQueryCall
  | pineUpsert (id : Text)
  | tweetFind (key : Text)
  | tweetInsert (key : Text)
  | publish (t : Text)
deriving DecidableEq, Repr

/-- Whether metadata passes a Pinecone equality filter. -/
def metaPasses (f : PFilter) (m : VectorMeta) : Bool :=
  m.intent == f.intent && m.topic == f.topic && m.tone == f.tone &&
    (match f.type with
     | none => true
     | some ty => m.type == some ty)

/-- Insert an entry into a list sorted by strictly descending key. -/
def insertByDesc (key : VectorEntry → ℚ) (e : VectorEntry) :
    List VectorEntry → List VectorEntry
  | [] => [e]
  | x :: xs => if key x < key e then e :: x :: xs else x :: insertByDesc key e xs

/-- Sort by descending key (insertion sort; ties keep index order). -/
def sortByDesc (key : VectorEntry → ℚ) : List VectorEntry → List VectorEntry
  | [] => []
  | x :: xs => insertByDesc key x (sortByDesc key xs)

/-- A Pinecone `query`: score every entry against the query vector, keep
those passing the filter (if one was sent), return the top-`k` by score.
`none` as the filter models a query issued without a `filter` field. -/
def pineQueryRun (w : World) (v : Emb) (k : Nat) (f : Option PFilter) :
    List PMatch :=
  let eligible := match f with
    | none => w.pine
    | some filt => w.pine.filter (fun e => metaPasses filt e.metadata)
  ((sortByDesc (fun e => w.score v e.values) eligible).take k).map
    (fun e => { id := e.id, score := w.score v e.values, metadata := e.metadata })

/-- Pinecone `upsert`: replace the entry with the same id, else append. -/
def pineUpsertList (l : List VectorEntry) (e : VectorEntry) : List VectorEntry :=
  match l with
  | [] => [e]
  | r :: rs => if r.id == e.id then e :: rs else r :: pineUpsertList rs e

/-- Mongo `findOne({query: key})` on `long_term_memory`; raises when the
store is failing. -/
def mongoFindOne (w : World) (key : Text) : Except MErr (Option MemoryEntry) :=
  if w.mongoFail then .error .mongoErr
  else .ok (w.mongo.find? (fun e => e.query == key))

/-- Mongo `updateOne({query}, {$set: ...}, {upsert: true})`: replace the
first document with this key, else insert. -/
def mongoUpsertList (l : List MemoryEntry) (e : MemoryEntry) : List MemoryEntry :=
  match l with
  | [] => [e]
  | r :: rs => if r.query == e.query then e :: rs else r :: mongoUpsertList rs e

/-- `searchValidCachedMemory` (memory.ts lines 78-95): normalize, `findOne`
by normalized text.  A thrown Mongo error is caught inside the function,
logged, and turned into `null`; the function itself never raises.  The
`username` argument is ignored by the query, as in the source. -/
def searchValidCachedMemory (w : World) (username query : Text) :
    Except MErr (Option MemoryEntry) × List Ev :=
  let normalized := normalizeQuery query
  match mongoFindOne w normalized with
  | .error _ => (.ok none, [.mongoFind normalized])
  | .ok r => (.ok r, [.mongoFind normalized])

/-- The content-derived Pinecone id (base64 of the normalized text in the
source, injective; kept as the text itself here). -/
def contentId (normalized : Text) : Text := normalized

/-- The near-duplicate test of `addOrUpdateLongTermMemory`'s probe: score at
least 0.98 (`(m.score ?? 0) >= 0.98`; scores are always present in the
model) and metadata equal to the admitted context on all three fields. -/
def dedupAccept (ctx : ContextKey) (m : PMatch) : Bool :=
  decide (mkRat 98 100 ≤ m.score) && m.metadata.intent == ctx.intent &&
    m.metadata.topic == ctx.topic && m.metadata.tone == ctx.tone

/-- `addOrUpdateLongTermMemory` (memory.ts lines 98-165): always upsert the
Mongo row (context classified on the RAW query), then embed the normalized
text, probe the index with `topK 5` and NO filter, skip the vector upsert
when some returned match has score ≥ 0.98 and metadata equal to the
context, else upsert the vector entry.  No step is wrapped in try/catch, so
an embedding or Pinecone failure propagates after the Mongo write. -/
def addOrUpdateLongTermMemory (now : Nat) (w : World)
    (username summary query response : Text) :
    Except MErr Unit × World × List Ev :=
  let normalized := normalizeQuery query
  let ctx := classifyContext query
  let entry : MemoryEntry :=
    { username := username, query := normalized, summary := summary,
      response := response, intent := ctx.intent, topic := ctx.topic,
      tone := ctx.tone, cachedAt := now }
  let w1 : World := { w with mongo := mongoUpsertList w.mongo entry }
  match w1.embed normalized with
  | none => (.error .embedErr, w1, [.mongoUpsert normalized, .embedCall normalized])
  | some v =>
    if w1.pineFail then
      (.error .pineErr, w1,
       [.mongoUpsert normalized, .embedCall normalized, .pineQueryCall])
    else
      let probe := pineQueryRun w1 v 5 none
      let matched := probe.find? (dedupAccept ctx)
      match matched with
      | some _ =>
        (.ok (), w1,
         [.mongoUpsert normalized, .embedCall normalized, .pineQueryCall])
      | none =>
        let ventry : VectorEntry :=
          { id := contentId normalized, values := v,
            metadata := { query := normalized, summary := summary,
                          response := response, intent := ctx.intent,
                          topic := ctx.topic, tone := ctx.tone,
                          type := none } }
        (.ok (), { w1 with pine := pineUpsertList w1.pine ventry },
         [.mongoUpsert normalized, .embedCall normalized, .pineQueryCall,
          .pineUpsert (contentId normalized)])

/-- The options object of `queryPineconeSimilarity`. -/
structure QueryOptions where
  intent : Option Intent
  type : Option Text
  topic : Option Topic
  tone : Option Tone

/-- The acceptance test of `queryPineconeSimilarity`'s `find`: score at or
above the threshold, metadata equal to the filtered context on all three
fields, and equal on `type` when one was requested. -/
def acceptMatch (threshold : ℚ) (intent : Intent) (topic : Topic) (tone : Tone)
    (ty : Option Text) (m : PMatch) : Bool :=
  decide (threshold ≤ m.score) && m.metadata.intent == intent &&
    m.metadata.topic == topic && m.metadata.tone == tone &&
    (match ty with
     | none => true
     | some tv => m.metadata.type == some tv)

/-- `queryPineconeSimilarity` (pinecone.ts lines 12-75): normalize, embed,
merge classified context with caller options, query the index filtered by
the full context, accept the first match at or above the threshold whose
metadata re-checks, backfill Mongo through the callbacks when the row is
missing, and return the response.  Nothing is wrapped in try/catch, so an
embedding or Pinecone failure propagates. -/
def queryPineconeSimilarity (w : World) (userId query : Text) (threshold : ℚ)
    (detectIntent : Text → Intent)
    (saveToMongo : World → Text → Text → Text → Text → Except MErr Unit × World × List Ev)
    (checkMongoExists : World → Text → Text → Bool × List Ev)
    (options : QueryOptions) :
    Except MErr (Option Text) × World × List Ev :=
  let normalized := normalizeQuery query
  match w.embed normalized with
  | none => (.error .embedErr, w, [.embedCall normalized])
  | some v =>
    let cls := classifyContext normalized
    let intent := options.intent.getD (detectIntent normalized)
    let topic := options.topic.getD cls.topic
    let tone := options.tone.getD cls.tone
    let ty := options.type
    if w.pineFail then
      (.error .pineErr, w, [.embedCall normalized, .pineQueryCall])
    else
      let results := pineQueryRun w v 5 (some ⟨intent, topic, tone, ty⟩)
      let mtch := results.find? (acceptMatch threshold intent topic tone ty)
      match mtch with
      | none => (.ok none, w, [.embedCall normalized, .pineQueryCall])
      | some m =>
        if m.metadata.response.isEmpty then
          (.ok none, w, [.embedCall normalized, .pineQueryCall])
        else
          let response := m.metadata.response
          let summary := m.metadata.summary
          let (found, ev3) := checkMongoExists w userId normalized
          if found then
            (.ok (some response), w, [.embedCall normalized, .pineQueryCall] ++ ev3)
          else
            match saveToMongo w userId summary normalized response with
            | (.error e, w2, ev4) =>
              (.error e, w2, [.embedCall normalized, .pineQueryCall] ++ ev3 ++ ev4)
            | (.ok _, w2, ev4) =>
              (.ok (some response), w2,
               [.embedCall normalized, .pineQueryCall] ++ ev3 ++ ev4)

/-- The `checkMongoExists` callback that `generateReply` passes:
`!!(await searchValidCachedMemory(id, q))`. -/
def checkMongoExistsRun (w : World) (id q : Text) : Bool × List Ev :=
  match searchValidCachedMemory w id q with
  | (.ok (some _), ev) => (true, ev)
  | (_, ev) => (false, ev)

/-- The memory path of `generateReply` (characterEngine.ts lines 46-75):
the exact Mongo tier, then on miss (or falsy cached response) the Pinecone
semantic tier at threshold 0.85 filtered by the classified context.
`.ok (some r)` models returning cached response `r`; `.ok none` models the
full miss that falls through to the external LLM. -/
def generateReplyMemory (now : Nat) (w : World) (username input : Text) :
    Except MErr (Option Text) × List Ev × World :=
  let normalized := normalizeQuery input
  let ctx := classifyContext normalized
  let mres := searchValidCachedMemory w username normalized
  let hit := match mres.1 with
    | .ok (some entry) => if entry.response.isEmpty then none else some entry.response
    | _ => none
  match hit with
  | some resp => (.ok (some resp), mres.2, w)
  | none =>
    let sem := queryPineconeSimilarity w username normalized (mkRat 85 100)
      (fun _ => ctx.intent)
      (fun wa u s q r => addOrUpdateLongTermMemory now wa u s q r)
      checkMongoExistsRun
      ⟨none, none, some ctx.topic, none⟩
    (sem.1, mres.2 ++ sem.2.2, sem.2.1)

/-- `sanitizeTweet` (part_000): strip one leading and one trailing quote
character, then trim and lower-case. -/
def stripQuotes (t : Text) : Text :=
  let t1 := match t with
    | c :: rest => if c == 34 || c == 39 then rest else c :: rest
    | [] => []
  match t1.getLast? with
  | some c => if c == 34 || c == 39 then t1.dropLast else t1
  | none => t1

/-- `sanitizeTweet` from part_000. -/
def sanitizeTweet (t : Text) : Text := toLower (trim (stripQuotes t))

/-- `hasTweet` (part_000): sanitize and `findOne` in the `tweets`
collection; a Mongo error is caught and reported as `false`. -/
def hasTweet (w : World) (content : Text) : Bool × List Ev :=
  let s := sanitizeTweet content
  if w.mongoFail then (false, [.tweetFind s])
  else (w.tweets.any (fun r => r.text == s), [.tweetFind s])

/-- `storeTweet` (part_000): sanitize and `insertOne` a new row (a plain
insert: no key check, no unique index anywhere in the repository).  A Mongo
error is caught, logged and rethrown. -/
def storeTweet (now : Nat) (w : World) (content : Text) :
    Except MErr Unit × World × List Ev :=
  let s := sanitizeTweet content
  if w.mongoFail then (.error .mongoErr, w, [.tweetInsert s])
  else (.ok (), { w with tweets := w.tweets ++ [⟨s, now⟩] }, [.tweetInsert s])

/-- `postTweet` (part_000): sanitize, skip when `hasTweet`, otherwise
publish through the Twitter client and then `storeTweet` the sanitized
text.  Session setup is modelled as succeeding. -/
def postTweet (now : Nat) (w : World) (content : Text) :
    Except MErr Unit × World × List Ev :=
  let s := sanitizeTweet content
  let found := hasTweet w s
  if found.1 then (.ok (), w, found.2)
  else
    match storeTweet now w s with
    | (.error e, w2, ev2) => (.error e, w2, found.2 ++ [Ev.publish s] ++ ev2)
    | (.ok _, w2, ev2) => (.ok (), w2, found.2 ++ [Ev.publish s] ++ ev2)

deriving instance DecidableEq for Except

/-- Empty stores, healthy collaborators. -/
def emptyWorld : World :=
  { mongo := [], pine := [], tweets := [], mongoFail := false,
    pineFail := false, embed := fun _ => some 0, score := fun _ _ => 0 }

/-- A world whose embedding provider rejects every call. -/
def embedFailWorld : World := { emptyWorld with embed := fun _ => none }

/-- A world whose vector index rejects every query. -/
def pineFailWorld : World := { emptyWorld with pineFail := true }

/-- A world whose exact store raises, while still holding a record for the
normalized text `"hi"`. -/
def failingMongoWorld : World :=
  { emptyWorld with
      mongoFail := true,
      mongo := [{ username := str "u", query := str "hi", summary := str "s",
                  response := str "r", intent := .statement, topic := .other,
                  tone := .neutral, cachedAt := 0 }] }

/-- A world holding an exact record whose cached response is the empty
string (a falsy value in the source's `mongoHit?.response` test). -/
def emptyResponseWorld : World :=
  { emptyWorld with
      mongo := [{ username := str "u", query := str "hi", summary := str "s",
                  response := [], intent := .statement, topic := .other,
                  tone := .neutral, cachedAt := 0 }] }

/-- A world with one cached exact record and a semantically matching vector
entry; the exact row must win. -/
def exactHitWorld : World :=
  { emptyWorld with
      mongo := [{ username := str "u", query := str "hey there",
                  summary := str "s", response := str "cached answer",
                  intent := .statement, topic := .other, tone := .neutral,
                  cachedAt := 0 }],
      pine := [{ id := str "hey there", values := 0,
                 metadata := { query := str "hey there", summary := str "s",
                               response := str "vector answer",
                               intent := .statement, topic := .other,
                               tone := .neutral, type := none } }],
      score := fun _ _ => 1 }

/-- A world with a single context-matching vector entry scoring exactly
0.85 against every query vector. -/
def c6HitWorld : World :=
  { emptyWorld with
      pine := [{ id := str "beskar what is it", values := 3,
                 metadata := { query := str "beskar what is it",
                               summary := str "sum",
                               response := str "mando steel",
                               intent := .question, topic := .starwars,
                               tone := .neutral, type := none } }],
      embed := fun _ => some 9,
      score := fun _ _ => mkRat 85 100 }

/-- The same world with the entry scoring 0.8499. -/
def c6MissWorld : World := { c6HitWorld with score := fun _ _ => mkRat 8499 10000 }

/-- Vector metadata of a context that does not match (question, crypto,
neutral). -/
def offCtxMeta : VectorMeta :=
  { query := str "q", summary := str "s", response := str "r",
    intent := .question, topic := .tech, tone := .neutral, type := none }

/-- Matching metadata for the (question, crypto, neutral) context. -/
def cryptoCtxMeta : VectorMeta :=
  { query := str "n6", summary := str "s", response := str "r",
    intent := .question, topic := .crypto, tone := .neutral, type := none }

/-- An index where five off-context entries outscore the one entry of the
admitted context, which itself sits at 0.99. -/
def c1World : World :=
  { emptyWorld with
      pine :=
        [⟨str "n1", 1, offCtxMeta⟩, ⟨str "n2", 2, offCtxMeta⟩,
         ⟨str "n3", 3, offCtxMeta⟩, ⟨str "n4", 4, offCtxMeta⟩,
         ⟨str "n5", 5, offCtxMeta⟩, ⟨str "n6", 6, cryptoCtxMeta⟩],
      embed := fun _ => some 100,
      score := fun _ e =>
        if e == 1 then mkRat 999 1000
        else if e == 2 then mkRat 998 1000
        else if e == 3 then mkRat 997 1000
        else if e == 4 then mkRat 996 1000
        else if e == 5 then mkRat 995 1000
        else if e == 6 then mkRat 99 100
        else 0 }

/-- Healthy collaborators; identical texts embed identically and score 1
against themselves, anything else scores 0. -/
def paraWorld : World :=
  { emptyWorld with
      embed := fun _ => some 7,
      score := fun a b => if a == b then 1 else 0 }

/-- First admit of `"crypto?"` with response `r1`. -/
def paraAdmit1 : Except MErr Unit × World × List Ev :=
  addOrUpdateLongTermMemory 0 paraWorld (str "u") (str "s1") (str "crypto?")
    (str "r1")

/-- Second admit of the same query with response `r2`; its probe sees the
first vector at similarity 1 ≥ 0.98 with the same context, so the vector
write is suppressed. -/
def paraAdmit2 : Except MErr Unit × World × List Ev :=
  addOrUpdateLongTermMemory 1 paraAdmit1.2.1 (str "u") (str "s2")
    (str "crypto?") (str "r2")

/-- First `storeTweet` of `"Hello"` into empty stores. -/
def dupStore1 : Except MErr Unit × World × List Ev :=
  storeTweet 0 emptyWorld (str "Hello")

/-- Second `storeTweet` of the same content. -/
def dupStore2 : Except MErr Unit × World × List Ev :=
  storeTweet 1 dupStore1.2.1 (str "Hello")

/-- A world that has already recorded the normalized text `"hello"`. -/
def preEmittedWorld : World :=
  { emptyWorld with tweets := [⟨str "hello", 0⟩] }

lemma lowerCode_idem (n : Nat) : lowerCode (lowerCode n) = lowerCode n := by
  unfold lowerCode
  by_cases h : 65 ≤ n ∧ n ≤ 90
  · rw [if_pos h, if_neg (by omega)]
  · rw [if_neg h, if_neg h]

lemma isJsWS_lowerCode (n : Nat) : isJsWS (lowerCode n) = isJsWS n := by
  unfold lowerCode
  by_cases h : 65 ≤ n ∧ n ≤ 90
  · rw [if_pos h]
    have h1 : (n + 32) ∉ wsCodes := by
      simp only [wsCodes, List.mem_cons, List.not_mem_nil, or_false]
      omega
    have h2 : n ∉ wsCodes := by
      simp only [wsCodes, List.mem_cons, List.not_mem_nil, or_false]
      omega
    simp [isJsWS, h1, h2]
  · rw [if_neg h]

lemma toLower_toLower (t : Text) : toLower (toLower t) = toLower t := by
  unfold toLower
  rw [List.map_map]
  exact List.map_congr_left (fun a _ => lowerCode_idem a)

lemma dropWhileWS_toLower (l : Text) :
    (toLower l).dropWhile isJsWS = toLower (l.dropWhile isJsWS) := by
  unfold toLower
  rw [List.dropWhile_map]
  have h : (isJsWS ∘ lowerCode) = isJsWS := funext isJsWS_lowerCode
  rw [h]

lemma toLower_reverse (l : Text) : toLower l.reverse = (toLower l).reverse := by
  unfold toLower
  exact List.map_reverse _ _

lemma toLower_trimEnd (l : Text) : toLower (trimEnd l) = trimEnd (toLower l) := by
  unfold trimEnd
  rw [toLower_reverse]
  congr 1
  rw [← toLower_reverse, dropWhileWS_toLower]

lemma toLower_trim (t : Text) : toLower (trim t) = trim (toLower t) := by
  unfold trim
  rw [toLower_trimEnd, dropWhileWS_toLower]

lemma dropWhile_idem (p : Nat → Bool) (l : List Nat) :
    (l.dropWhile p).dropWhile p = l.dropWhile p := by
  induction l with
  | nil => rfl
  | cons a as ih =>
    cases heq : p a with
    | true => rw [List.dropWhile_cons, if_pos heq, ih]
    | false =>
      rw [List.dropWhile_cons, if_neg (by simp [heq]),
          List.dropWhile_cons, if_neg (by simp [heq])]

lemma head_dropWhile_false (p : Nat → Bool) (l : List Nat) :
    ∀ x ∈ (l.dropWhile p).head?, p x = false := by
  induction l with
  | nil => simp
  | cons a as ih =>
    cases heq : p a with
    | true => rw [List.dropWhile_cons, if_pos heq]; exact ih
    | false =>
      rw [List.dropWhile_cons, if_neg (by simp [heq])]
      intro x hx
      simp only [List.head?_cons, Option.mem_some_iff] at hx
      subst hx; exact heq

lemma dropWhile_of_head_false (p : Nat → Bool) (l : List Nat)
    (h : ∀ x ∈ l.head?, p x = false) : l.dropWhile p = l := by
  cases l with
  | nil => rfl
  | cons a as =>
    rw [List.dropWhile_cons, if_neg (by simp [h a (by simp)])]

lemma prefix_head? {l₁ l₂ : List Nat} (h : l₁ <+: l₂) (hne : l₁ ≠ []) :
    l₁.head? = l₂.head? := by
  cases l₁ with
  | nil => exact absurd rfl hne
  | cons a as =>
    obtain ⟨t, ht⟩ := h
    cases l₂ with
    | nil => simp at ht
    | cons b bs => injection ht with h1 _; subst h1; rfl

lemma trimEnd_prefix (l : Text) : trimEnd l <+: l := by
  have h1 : l.reverse.dropWhile isJsWS <:+ l.reverse := List.dropWhile_suffix _
  have h2 : (l.reverse.dropWhile isJsWS).reverse <+: l.reverse.reverse :=
    (List.reverse_prefix).mpr h1
  rwa [List.reverse_reverse] at h2

lemma trimEnd_idem (l : Text) : trimEnd (trimEnd l) = trimEnd l := by
  unfold trimEnd
  rw [List.reverse_reverse, dropWhile_idem]

lemma head_trim_false (t : Text) : ∀ x ∈ (trim t).head?, isJsWS x = false := by
  intro x hx
  rcases eqn : trim t with _ | ⟨a, as⟩
  · rw [eqn] at hx; simp at hx
  · have hp : trim t <+: t.dropWhile isJsWS := trimEnd_prefix _
    have h1 : (trim t).head? = (t.dropWhile isJsWS).head? :=
      prefix_head? hp (by simp [eqn])
    rw [h1] at hx
    exact head_dropWhile_false isJsWS t x hx

lemma trim_idem (t : Text) : trim (trim t) = trim t := by
  have h1 : (trim t).dropWhile isJsWS = trim t :=
    dropWhile_of_head_false _ _ (head_trim_false t)
  show trimEnd ((trim t).dropWhile isJsWS) = trim t
  rw [h1]
  show trimEnd (trimEnd (t.dropWhile isJsWS)) = trim t
  rw [trimEnd_idem]
  rfl

lemma normalizeQuery_idem (t : Text) :
    normalizeQuery (normalizeQuery t) = normalizeQuery t := by
  unfold normalizeQuery
  rw [← toLower_trim, trim_idem, toLower_toLower]

/-- A pattern that starts with a non-whitespace code point occurs in
`l.dropWhile isJsWS` iff it occurs in `l`. -/
lemma infix_dropWhileWS_iff (p l : Text) (hne : p ≠ [])
    (hh : ∀ x ∈ p.head?, isJsWS x = false) :
    p <:+: l.dropWhile isJsWS ↔ p <:+: l := by
  induction l with
  | nil => exact Iff.rfl
  | cons a as ih =>
    cases heq : isJsWS a with
    | false => rw [List.dropWhile_cons, if_neg (by simp [heq])]
    | true =>
      rw [List.dropWhile_cons, if_pos heq]
      rw [ih, List.infix_cons_iff]
      constructor
      · exact Or.inr
      · rintro (hpre | hinf)
        · exfalso
          have h1 : p.head? = some a := by
            rw [prefix_head? hpre hne]; rfl
          have := hh a h1
          rw [heq] at this
          exact Bool.true_eq_false.mp this
        · exact hinf

/-- A pattern whose first and last code points are non-whitespace occurs in
`trim l` iff it occurs in `l`. -/
lemma infix_trim_iff (p l : Text) (hne : p ≠ [])
    (hh : ∀ x ∈ p.head?, isJsWS x = false)
    (hl : ∀ x ∈ p.getLast?, isJsWS x = false) :
    p <:+: trim l ↔ p <:+: l := by
  have hrne : p.reverse ≠ [] := by simpa using hne
  have hrh : ∀ x ∈ p.reverse.head?, isJsWS x = false := by
    intro x hx
    rw [List.head?_reverse] at hx
    exact hl x hx
  have step1 : p <:+: trim l ↔ p <:+: l.dropWhile isJsWS := by
    rw [← @List.reverse_infix Nat p (trim l)]
    show p.reverse <:+: (trimEnd (l.dropWhile isJsWS)).reverse ↔ _
    rw [show (trimEnd (l.dropWhile isJsWS)).reverse
          = (l.dropWhile isJsWS).reverse.dropWhile isJsWS by
        unfold trimEnd; rw [List.reverse_reverse]]
    rw [infix_dropWhileWS_iff p.reverse _ hrne hrh]
    exact List.reverse_infix
  rw [step1]
  exact infix_dropWhileWS_iff p l hne hh

lemma containsSub_trim (l p : Text) (hp : goodPat p = true) :
    containsSub (trim l) p = containsSub l p := by
  cases p with
  | nil => simp [goodPat, List.isEmpty] at hp
  | cons a as =>
    rw [goodPat, Bool.and_eq_true, Bool.and_eq_true] at hp
    obtain ⟨⟨-, hh'⟩, hl'⟩ := hp
    have hh : ∀ x ∈ (a :: as).head?, isJsWS x = false := by
      intro x hx
      rw [Option.mem_def] at hx
      rw [hx] at hh'
      simpa [Option.all] using hh'
    have hl : ∀ x ∈ (a :: as).getLast?, isJsWS x = false := by
      intro x hx
      rw [Option.mem_def] at hx
      rw [hx] at hl'
      simpa [Option.all] using hl'
    unfold containsSub
    exact decide_eq_decide.mpr (infix_trim_iff (a :: as) l (by simp) hh hl)

lemma containsAny_trim (l : Text) (pats : List Text)
    (hp : pats.all goodPat = true) :
    containsAny (trim l) pats = containsAny l pats := by
  induction pats with
  | nil => rfl
  | cons q qs ih =>
    rw [List.all_cons, Bool.and_eq_true] at hp
    unfold containsAny at *
    rw [List.any_cons, List.any_cons, containsSub_trim l q hp.1, ih hp.2]

lemma any_congr {α : Type} {l : List α} {f g : α → Bool}
    (h : ∀ a ∈ l, f a = g a) : l.any f = l.any g := by
  induction l with
  | nil => rfl
  | cons a as ih =>
    rw [List.any_cons, List.any_cons, h a (by simp), ih (fun b hb => h b (by simp [hb]))]

lemma intentTest_trim (u : Text) : intentTest (trim u) = intentTest u :=
  containsAny_trim u _ (by decide)

lemma cryptoTest_trim (u : Text) : cryptoTest (trim u) = cryptoTest u :=
  containsAny_trim u _ (by decide)

lemma starwarsTest_trim (u : Text) : starwarsTest (trim u) = starwarsTest u := by
  have hg : ∀ c ∈ wsCodes, goodPat (str "star" ++ [c] ++ str "wars") = true := by decide
  unfold starwarsTest
  rw [containsSub_trim u _ (by decide)]
  rw [containsAny_trim u _ (by decide)]
  rw [any_congr (fun c hc => containsSub_trim u _ (hg c hc))]

lemma animeTest_trim (u : Text) : animeTest (trim u) = animeTest u :=
  containsAny_trim u _ (by decide)

lemma musicTest_trim (u : Text) : musicTest (trim u) = musicTest u :=
  containsAny_trim u _ (by decide)

lemma movieTest_trim (u : Text) : movieTest (trim u) = movieTest u :=
  containsAny_trim u _ (by decide)

lemma celebrityTest_trim (u : Text) : celebrityTest (trim u) = celebrityTest u :=
  containsAny_trim u _ (by decide)

lemma techTest_trim (u : Text) : techTest (trim u) = techTest u :=
  containsAny_trim u _ (by decide)

lemma alienTest_trim (u : Text) : alienTest (trim u) = alienTest u :=
  containsAny_trim u _ (by decide)

lemma popcultureTest_trim (u : Text) : popcultureTest (trim u) = popcultureTest u :=
  containsAny_trim u _ (by decide)

lemma empatheticTest_trim (u : Text) : empatheticTest (trim u) = empatheticTest u :=
  containsAny_trim u _ (by decide)

lemma playfulTest_trim (u : Text) : playfulTest (trim u) = playfulTest u :=
  containsAny_trim u _ (by decide)

lemma seriousTest_trim (u : Text) : seriousTest (trim u) = seriousTest u :=
  containsAny_trim u _ (by decide)

lemma toLower_normalizeQuery (q : Text) :
    toLower (normalizeQuery q) = trim (toLower q) := by
  unfold normalizeQuery
  rw [toLower_toLower, toLower_trim]

/-- C9: `classifyContext` gives the same `ContextKey` on the normalized text
as on the raw text: trimming cannot create or destroy a keyword occurrence
(every pattern starts and ends with a non-whitespace code point) and the
classifier lower-cases its input itself. Hence `lookup`, which classifies
the normalized text, and `admit`, which classifies the raw query, derive
the same `ContextKey` for the same raw query. -/
theorem classifyContext_normalizeQuery (q : Text) :
    classifyContext (normalizeQuery q) = classifyContext q := by
  simp only [classifyContext, toLower_normalizeQuery]
  rw [intentTest_trim, cryptoTest_trim, starwarsTest_trim, animeTest_trim,
    musicTest_trim, movieTest_trim, celebrityTest_trim, techTest_trim,
    alienTest_trim, popcultureTest_trim, empatheticTest_trim, playfulTest_trim,
    seriousTest_trim]

/-- C10: `classifyContext` returns intent `question` exactly when the text
contains a question marker or one of the interrogative words
what/why/how/who/when/is/are/do/does/should, and `statement` otherwise. -/
theorem classifyContext_intent_question_iff (t : Text) :
    ((classifyContext t).intent = Intent.question ↔ hasInterrogativeMarker t)
    ∧ (¬ hasInterrogativeMarker t → (classifyContext t).intent = Intent.statement) := by
  have hunf : (classifyContext t).intent
      = (if intentTest (toLower t) then Intent.question else Intent.statement) := rfl
  have hiff : intentTest (toLower t) = true ↔ hasInterrogativeMarker t := by
    rw [intentTest, containsAny, List.any_eq_true]
    constructor
    · rintro ⟨p, hp, hd⟩
      exact ⟨p, hp, of_decide_eq_true hd⟩
    · rintro ⟨p, hp, hinf⟩
      exact ⟨p, hp, decide_eq_true hinf⟩
  cases hb : intentTest (toLower t) with
  | true =>
    rw [hunf, hb, if_pos rfl]
    exact ⟨⟨fun _ => hiff.mp hb, fun _ => rfl⟩, fun hn => absurd (hiff.mp hb) hn⟩
  | false =>
    rw [hunf, hb, if_neg (by simp)]
    constructor
    · constructor
      · intro h; exact absurd h (by simp)
      · intro h
        have h2 := hiff.mpr h
        rw [hb] at h2
        exact absurd h2 (by simp)
    · intro _; rfl

/-- Witness for `classifyContext_intent_question_iff`: a text with no
interrogative marker is classified as a statement. -/
theorem classifyContext_intent_question_iff_witness :
    (classifyContext (str "hello there")).intent = Intent.statement :=
  (classifyContext_intent_question_iff (str "hello there")).2 (by decide)

lemma isEmpty_eq_false_of_ne_nil {l : Text} (h : l ≠ []) : l.isEmpty = false := by
  cases l with
  | nil => exact absurd rfl h
  | cons a as => rfl

lemma find?_mongoUpsertList (l : List MemoryEntry) (e : MemoryEntry) :
    (mongoUpsertList l e).find? (fun r => r.query == e.query) = some e := by
  induction l with
  | nil =>
    unfold mongoUpsertList
    simp [List.find?]
  | cons r rs ih =>
    unfold mongoUpsertList
    cases heq : r.query == e.query with
    | true =>
      rw [if_pos rfl, List.find?_cons_of_pos _ (by simp)]
    | false =>
      rw [if_neg (by simp), List.find?_cons_of_neg _ (by simp [heq])]
      exact ih

lemma find?_pineUpsertList (l : List VectorEntry) (e : VectorEntry) :
    (pineUpsertList l e).find? (fun r => r.id == e.id) = some e := by
  induction l with
  | nil =>
    unfold pineUpsertList
    simp [List.find?]
  | cons r rs ih =>
    unfold pineUpsertList
    cases heq : r.id == e.id with
    | true =>
      rw [if_pos rfl, List.find?_cons_of_pos _ (by simp)]
    | false =>
      rw [if_neg (by simp), List.find?_cons_of_neg _ (by simp [heq])]
      exact ih

/-- A Pinecone query only reads the index and the scores, so the Mongo
component of the world is irrelevant to it. -/
lemma pineQueryRun_update_mongo (w : World) (m : List MemoryEntry) (v : Emb)
    (k : Nat) (f : Option PFilter) :
    pineQueryRun { w with mongo := m } v k f = pineQueryRun w v k f := rfl

/-- `find?_mongoUpsertList` with the key given up to definitional
unfolding. -/
lemma find?_mongoUpsertList' (l : List MemoryEntry) (e : MemoryEntry)
    (k : Text) (hk : e.query = k) :
    (mongoUpsertList l e).find? (fun r => r.query == k) = some e :=
  hk ▸ find?_mongoUpsertList l e

/-- `find?_pineUpsertList` with the id given up to definitional
unfolding. -/
lemma find?_pineUpsertList' (l : List VectorEntry) (e : VectorEntry)
    (k : Text) (hk : e.id = k) :
    (pineUpsertList l e).find? (fun r => r.id == k) = some e :=
  hk ▸ find?_pineUpsertList l e

/-- `dedupAccept` unfolded to a proposition. -/
lemma dedupAccept_iff (ctx : ContextKey) (m : PMatch) :
    dedupAccept ctx m = true ↔
      mkRat 98 100 ≤ m.score ∧ m.metadata.intent = ctx.intent ∧
      m.metadata.topic = ctx.topic ∧ m.metadata.tone = ctx.tone := by
  unfold dedupAccept
  simp [Bool.and_eq_true, and_assoc]

/-- C3 counterexample: the exact store is failing (its `findOne` raises),
yet `searchValidCachedMemory` returns `.ok none` — a silent miss, not a
propagated error — even though a record for the query exists. -/
theorem searchValid_swallows_error_cex :
    (searchValidCachedMemory failingMongoWorld (str "u") (str "hi")).1 = .ok none ∧
    failingMongoWorld.mongoFail = true ∧
    failingMongoWorld.mongo ≠ [] :=
  ⟨rfl, rfl, by decide⟩

/-- C3 amended: a raised Mongo `findOne` during the exact tier is caught
inside `searchValidCachedMemory` and turned into a miss (`null`); the
lookup continues instead of failing. -/
theorem searchValid_error_becomes_miss (w : World) (username query : Text)
    (hfail : w.mongoFail = true) :
    searchValidCachedMemory w username query
      = (.ok none, [Ev.mongoFind (normalizeQuery query)]) := by
  unfold searchValidCachedMemory mongoFindOne
  rw [hfail]
  rfl

/-- Witness for `searchValid_error_becomes_miss` at a concrete world. -/
theorem searchValid_error_becomes_miss_witness :
    searchValidCachedMemory failingMongoWorld (str "u") (str "hello")
      = (.ok none, [Ev.mongoFind (normalizeQuery (str "hello"))]) :=
  searchValid_error_becomes_miss failingMongoWorld (str "u") (str "hello") rfl

/-- C4 counterexample: with an empty exact tier and a failing embedding
provider, the lookup's result is a propagated `embedErr`, not the `.ok none`
miss the claim requires. -/
theorem lookup_semantic_failure_cex :
    (generateReplyMemory 0 embedFailWorld (str "u") (str "hi")).1
      = .error .embedErr ∧
    embedFailWorld.mongo = [] :=
  ⟨rfl, rfl⟩

/-- C4 amended: on an exact-tier miss, a failure of the embedding provider
or of the vector index during the semantic path PROPAGATES out of the
lookup (`queryPineconeSimilarity` and `generateReply` wrap nothing in
try/catch); the lookup does not degrade to a miss. -/
theorem lookup_semantic_failure_propagates (w : World) (username input : Text)
    (now : Nat)
    (hok : w.mongoFail = false)
    (hfind : w.mongo.find? (fun r => r.query == normalizeQuery input) = none) :
    (w.embed (normalizeQuery input) = none →
      (generateReplyMemory now w username input).1 = .error .embedErr) ∧
    (w.pineFail = true →
      (∃ v, w.embed (normalizeQuery input) = some v) →
      (generateReplyMemory now w username input).1 = .error .pineErr) := by
  have hsearch : searchValidCachedMemory w username (normalizeQuery input)
      = (.ok none, [Ev.mongoFind (normalizeQuery input)]) := by
    unfold searchValidCachedMemory mongoFindOne
    rw [normalizeQuery_idem, hok]
    simp only [Bool.false_eq_true, if_false, hfind]
  constructor
  · intro hembed
    unfold generateReplyMemory queryPineconeSimilarity
    simp only [normalizeQuery_idem, hsearch, hembed]
  · rintro hpine ⟨v, hembed⟩
    unfold generateReplyMemory queryPineconeSimilarity
    simp only [normalizeQuery_idem, hsearch, hembed, hpine, if_true]

/-- Witness for `lookup_semantic_failure_propagates`: the embedding-failure
arm at one concrete world and the index-failure arm at another. -/
theorem lookup_semantic_failure_propagates_witness :
    (generateReplyMemory 0 embedFailWorld (str "yo") (str "hi")).1
      = .error .embedErr ∧
    (generateReplyMemory 0 pineFailWorld (str "yo") (str "hi")).1
      = .error .pineErr :=
  ⟨(lookup_semantic_failure_propagates embedFailWorld (str "yo") (str "hi") 0
      rfl rfl).1 rfl,
   (lookup_semantic_failure_propagates pineFailWorld (str "yo") (str "hi") 0
      rfl rfl).2 rfl ⟨0, rfl⟩⟩

/-- C8 counterexample: when the embedding provider fails during admit, the
call does NOT complete: it returns a propagated `embedErr` (the exact-tier
write has taken effect and the vector write is skipped, but the failure is
not swallowed as the claim requires). -/
theorem admit_embed_failure_cex :
    (addOrUpdateLongTermMemory 0 embedFailWorld (str "u") (str "s") (str "hi")
        (str "r")).1 = .error .embedErr ∧
    (addOrUpdateLongTermMemory 0 embedFailWorld (str "u") (str "s") (str "hi")
        (str "r")).2.1.mongo.length = 1 :=
  ⟨rfl, by decide⟩

/-- C8 amended: if the embedding provider fails during admit, the exact-tier
upsert has already taken effect and the vector write never happens, but the
failure PROPAGATES to the caller (`addOrUpdateLongTermMemory` has no
try/catch), instead of the admit completing best-effort. -/
theorem admit_embed_failure_effects (w : World)
    (username summary query response : Text) (now : Nat)
    (hembed : w.embed (normalizeQuery query) = none) :
    (addOrUpdateLongTermMemory now w username summary query response).1
      = .error .embedErr ∧
    (addOrUpdateLongTermMemory now w username summary query response).2.1.mongo
      = mongoUpsertList w.mongo
          { username := username, query := normalizeQuery query,
            summary := summary, response := response,
            intent := (classifyContext query).intent,
            topic := (classifyContext query).topic,
            tone := (classifyContext query).tone, cachedAt := now } ∧
    (addOrUpdateLongTermMemory now w username summary query response).2.1.pine
      = w.pine ∧
    Ev.pineUpsert (contentId (normalizeQuery query))
      ∉ (addOrUpdateLongTermMemory now w username summary query response).2.2 := by
  unfold addOrUpdateLongTermMemory
  dsimp only
  rw [hembed]
  refine ⟨rfl, rfl, rfl, ?_⟩
  simp

/-- Witness for `admit_embed_failure_effects` at a concrete world. -/
theorem admit_embed_failure_effects_witness :
    (addOrUpdateLongTermMemory 0 embedFailWorld (str "u") (str "s") (str "hey")
        (str "r")).1 = .error .embedErr ∧
    (addOrUpdateLongTermMemory 0 embedFailWorld (str "u") (str "s") (str "hey")
        (str "r")).2.1.pine = embedFailWorld.pine :=
  ⟨(admit_embed_failure_effects embedFailWorld (str "u") (str "s") (str "hey")
      (str "r") 0 rfl).1,
   (admit_embed_failure_effects embedFailWorld (str "u") (str "s") (str "hey")
      (str "r") 0 rfl).2.2.1⟩

/-- C2 counterexample: a record for the normalized text exists in the exact
store, yet because its response is falsy (empty), `generateReply` falls
through to the semantic path — it calls the embedding provider and returns
a miss instead of the record's response. -/
theorem lookup_exact_record_not_returned_cex :
    (emptyResponseWorld.mongo.find?
        (fun e => e.query == normalizeQuery (str "hi"))).isSome = true ∧
    Ev.embedCall (str "hi")
      ∈ (generateReplyMemory 0 emptyResponseWorld (str "u") (str "hi")).2.1 ∧
    (generateReplyMemory 0 emptyResponseWorld (str "u") (str "hi")).1 = .ok none :=
  ⟨rfl, by decide, rfl⟩

/-- C2 amended: for every query whose normalized text has a record with a
truthy (nonempty) response in the exact store, the lookup returns that
record's response immediately: the trace is exactly one Mongo find — no
embedding call, no vector query — and the world is unchanged, regardless of
what the vector index holds. -/
theorem lookup_exact_hit_short_circuits (w : World) (username input : Text)
    (now : Nat) (e : MemoryEntry)
    (hok : w.mongoFail = false)
    (hfind : w.mongo.find? (fun r => r.query == normalizeQuery input) = some e)
    (hresp : e.response ≠ []) :
    generateReplyMemory now w username input
      = (.ok (some e.response), [Ev.mongoFind (normalizeQuery input)], w) := by
  have hsearch : searchValidCachedMemory w username (normalizeQuery input)
      = (.ok (some e), [Ev.mongoFind (normalizeQuery input)]) := by
    unfold searchValidCachedMemory mongoFindOne
    rw [normalizeQuery_idem, hok]
    simp only [Bool.false_eq_true, if_false, hfind]
  unfold generateReplyMemory
  simp only [hsearch, isEmpty_eq_false_of_ne_nil hresp, Bool.false_eq_true, if_false]

/-- Witness for `lookup_exact_hit_short_circuits`: the raw input normalizes
onto the cached key and the exact response is returned untouched even
though a perfectly scoring vector entry exists. -/
theorem lookup_exact_hit_short_circuits_witness :
    generateReplyMemory 0 exactHitWorld (str "u") (str " Hey THERE ")
      = (.ok (some (str "cached answer")),
         [Ev.mongoFind (normalizeQuery (str " Hey THERE "))], exactHitWorld) :=
  lookup_exact_hit_short_circuits exactHitWorld (str "u") (str " Hey THERE ") 0
    { username := str "u", query := str "hey there", summary := str "s",
      response := str "cached answer", intent := .statement, topic := .other,
      tone := .neutral, cachedAt := 0 }
    rfl (by decide) (by decide)

/-- C6: on the semantic path, a candidate whose metadata matches the
query's intent, topic and tone is accepted iff its score is ≥ 0.85; in the
full lookup a context-matching candidate at exactly 0.85 is accepted and
one at 0.8499 is rejected. -/
theorem semantic_threshold_boundary :
    (∀ (m : PMatch) (i : Intent) (tp : Topic) (tn : Tone),
        m.metadata.intent = i → m.metadata.topic = tp → m.metadata.tone = tn →
        (acceptMatch (mkRat 85 100) i tp tn none m = true ↔
          mkRat 85 100 ≤ m.score)) ∧
    (generateReplyMemory 0 c6HitWorld (str "u") (str "What is Beskar?")).1
      = .ok (some (str "mando steel")) ∧
    (generateReplyMemory 0 c6MissWorld (str "u") (str "What is Beskar?")).1
      = .ok none := by
  refine ⟨?_, by decide, by decide⟩
  intro m i tp tn h1 h2 h3
  subst h1; subst h2; subst h3
  unfold acceptMatch
  simp [Bool.and_eq_true]

/-- Witness for `semantic_threshold_boundary`: the acceptance predicate at
a concrete borderline candidate. -/
theorem semantic_threshold_boundary_witness :
    acceptMatch (mkRat 85 100) Intent.question Topic.starwars Tone.neutral none
      { id := str "id", score := mkRat 85 100,
        metadata := { query := str "q", summary := str "s", response := str "r",
                      intent := .question, topic := .starwars, tone := .neutral,
                      type := none } } = true :=
  (semantic_threshold_boundary.1 _ _ _ _ rfl rfl rfl).mpr (by decide)

/-- C1 counterexample: for the admitted query `"crypto?"` (context
question/crypto/neutral), a probe FILTERED by that context key returns a
0.99-scoring matching neighbor, so under the claim the vector upsert would
be skipped; but the code's probe carries no filter, its top 5 are the
higher-scoring off-context entries, and the upsert happens anyway. -/
theorem admit_probe_unfiltered_cex :
    classifyContext (str "crypto?")
      = ⟨Intent.question, Topic.crypto, Tone.neutral⟩ ∧
    (∃ m ∈ pineQueryRun c1World 100 5
        (some ⟨Intent.question, Topic.crypto, Tone.neutral, none⟩),
      dedupAccept (classifyContext (str "crypto?")) m = true) ∧
    Ev.pineUpsert (contentId (normalizeQuery (str "crypto?")))
      ∈ (addOrUpdateLongTermMemory 0 c1World (str "u") (str "s") (str "crypto?")
          (str "r")).2.2 :=
  ⟨by decide, by decide, by decide⟩

/-- C1 amended: the near-duplicate probe of admit queries the top 5
neighbors WITHOUT any ContextKey filter; the vector upsert is skipped iff
some neighbor of that unfiltered probe has score ≥ 0.98 and metadata whose
intent, topic and tone all equal the ContextKey of the admitted (raw)
query; otherwise a new `VectorEntry` is upserted. -/
theorem admit_dedup_probe_unfiltered (w : World)
    (username summary query response : Text) (now : Nat) (v : Emb)
    (hembed : w.embed (normalizeQuery query) = some v)
    (hpine : w.pineFail = false) :
    ((∃ m ∈ pineQueryRun w v 5 none,
        mkRat 98 100 ≤ m.score ∧
        m.metadata.intent = (classifyContext query).intent ∧
        m.metadata.topic = (classifyContext query).topic ∧
        m.metadata.tone = (classifyContext query).tone) ↔
      Ev.pineUpsert (contentId (normalizeQuery query))
        ∉ (addOrUpdateLongTermMemory now w username summary query response).2.2) ∧
    ((∃ m ∈ pineQueryRun w v 5 none,
        mkRat 98 100 ≤ m.score ∧
        m.metadata.intent = (classifyContext query).intent ∧
        m.metadata.topic = (classifyContext query).topic ∧
        m.metadata.tone = (classifyContext query).tone) →
      (addOrUpdateLongTermMemory now w username summary query response).2.1.pine
        = w.pine) := by
  cases hfind : (pineQueryRun w v 5 none).find? (dedupAccept (classifyContext query)) with
  | none =>
    have hnotex : ¬ (∃ m ∈ pineQueryRun w v 5 none,
        mkRat 98 100 ≤ m.score ∧
        m.metadata.intent = (classifyContext query).intent ∧
        m.metadata.topic = (classifyContext query).topic ∧
        m.metadata.tone = (classifyContext query).tone) := by
      rw [List.find?_eq_none] at hfind
      rintro ⟨m, hm, hprop⟩
      exact hfind m hm ((dedupAccept_iff _ m).mpr hprop)
    unfold addOrUpdateLongTermMemory
    simp only [pineQueryRun_update_mongo, hembed]
    simp only [hfind]
    simp only [hpine, Bool.false_eq_true, if_false]
    constructor
    · exact iff_of_false hnotex (fun hn => hn (by simp))
    · intro hex; exact absurd hex hnotex
  | some m =>
    have hexists : ∃ m' ∈ pineQueryRun w v 5 none,
        mkRat 98 100 ≤ m'.score ∧
        m'.metadata.intent = (classifyContext query).intent ∧
        m'.metadata.topic = (classifyContext query).topic ∧
        m'.metadata.tone = (classifyContext query).tone :=
      ⟨m, List.mem_of_find?_eq_some hfind,
        (dedupAccept_iff _ m).mp (List.find?_some hfind)⟩
    unfold addOrUpdateLongTermMemory
    simp only [pineQueryRun_update_mongo, hembed]
    simp only [hfind]
    simp only [hpine, Bool.false_eq_true, if_false]
    exact ⟨iff_of_true hexists (by simp), fun _ => by trivial⟩

/-- Witness for `admit_dedup_probe_unfiltered` at the crowded index. -/
theorem admit_dedup_probe_unfiltered_witness :
    (∃ m ∈ pineQueryRun c1World 100 5 none,
        mkRat 98 100 ≤ m.score ∧
        m.metadata.intent = (classifyContext (str "crypto?")).intent ∧
        m.metadata.topic = (classifyContext (str "crypto?")).topic ∧
        m.metadata.tone = (classifyContext (str "crypto?")).tone) ↔
      Ev.pineUpsert (contentId (normalizeQuery (str "crypto?")))
        ∉ (addOrUpdateLongTermMemory 0 c1World (str "u") (str "s")
            (str "crypto?") (str "r")).2.2 :=
  (admit_dedup_probe_unfiltered c1World (str "u") (str "s") (str "crypto?")
    (str "r") 0 100 rfl rfl).1

/-- C5 counterexample: after the two admits, the exact store holds the new
response `r2` while the `VectorEntry` for the same normalizedQuery still
holds `r1` — the two stores do not carry identical values. -/
theorem memory_vector_divergence_cex :
    (paraAdmit2.2.1.mongo.find?
        (fun e => e.query == normalizeQuery (str "crypto?"))).map
      (fun e => e.response) = some (str "r2") ∧
    (paraAdmit2.2.1.pine.find?
        (fun e => e.id == contentId (normalizeQuery (str "crypto?")))).map
      (fun e => e.metadata.response) = some (str "r1") ∧
    paraAdmit1.1 = .ok () ∧ paraAdmit2.1 = .ok () ∧
    str "r1" ≠ str "r2" :=
  ⟨by decide, by decide, rfl, rfl, by decide⟩

/-- C5 amended: after an admit whose embedding succeeds and whose
near-duplicate probe finds no match (the vector write is NOT suppressed),
the exact-store record and the vector entry for that normalizedQuery carry
identical response, summary and context; when the probe suppresses the
write, only the exact row is refreshed and the stores may diverge. -/
theorem admit_unsuppressed_stores_agree (w : World)
    (username summary query response : Text) (now : Nat) (v : Emb)
    (hembed : w.embed (normalizeQuery query) = some v)
    (hpine : w.pineFail = false)
    (hnoskip : (pineQueryRun w v 5 none).find?
        (dedupAccept (classifyContext query)) = none) :
    ∃ me ve,
      (addOrUpdateLongTermMemory now w username summary query
          response).2.1.mongo.find?
        (fun r => r.query == normalizeQuery query) = some me ∧
      (addOrUpdateLongTermMemory now w username summary query
          response).2.1.pine.find?
        (fun r => r.id == contentId (normalizeQuery query)) = some ve ∧
      me.response = ve.metadata.response ∧ me.summary = ve.metadata.summary ∧
      me.intent = ve.metadata.intent ∧ me.topic = ve.metadata.topic ∧
      me.tone = ve.metadata.tone := by
  unfold addOrUpdateLongTermMemory
  simp only [pineQueryRun_update_mongo, hembed]
  simp only [hnoskip]
  simp only [hpine, Bool.false_eq_true, if_false]
  exact ⟨_, _, find?_mongoUpsertList' w.mongo _ _ rfl,
    find?_pineUpsertList' w.pine _ _ rfl, rfl, rfl, rfl, rfl, rfl⟩

/-- Witness for `admit_unsuppressed_stores_agree` at the first admit into
an empty index. -/
theorem admit_unsuppressed_stores_agree_witness :
    ∃ me ve,
      paraAdmit1.2.1.mongo.find?
        (fun r => r.query == normalizeQuery (str "crypto?")) = some me ∧
      paraAdmit1.2.1.pine.find?
        (fun r => r.id == contentId (normalizeQuery (str "crypto?"))) = some ve ∧
      me.response = ve.metadata.response ∧ me.summary = ve.metadata.summary ∧
      me.intent = ve.metadata.intent ∧ me.topic = ve.metadata.topic ∧
      me.tone = ve.metadata.tone :=
  admit_unsuppressed_stores_agree paraWorld (str "u") (str "s1") (str "crypto?")
    (str "r1") 0 7 rfl rfl (by decide)

/-- C7 counterexample: `storeTweet` is a plain `insertOne` with no key
check and no unique index, so calling it twice with the same content
succeeds both times but leaves TWO rows for that normalized text, not
exactly one. -/
theorem storeTweet_duplicates_cex :
    dupStore2.1 = .ok () ∧
    (dupStore2.2.1.tweets.filter
        (fun r => r.text == sanitizeTweet (str "Hello"))).length = 2 :=
  ⟨rfl, by decide⟩

/-- C7 amended: `recordEmission` (`storeTweet`) is NOT idempotent: calling
it twice with inputs that sanitize to the same text raises no error but
inserts a second row, so stored normalized texts are not unique; duplicate
emission is prevented only by `postTweet`'s `hasTweet` pre-check, which
returns without publishing or storing when a row for the text already
exists. -/
theorem storeTweet_plain_insert (w : World) (c1 c2 : Text) (n1 n2 : Nat)
    (hok : w.mongoFail = false)
    (hsan : sanitizeTweet c2 = sanitizeTweet c1) :
    (storeTweet n1 w c1).1 = .ok () ∧
    (storeTweet n2 (storeTweet n1 w c1).2.1 c2).1 = .ok () ∧
    ((storeTweet n2 (storeTweet n1 w c1).2.1 c2).2.1.tweets.filter
        (fun r => r.text == sanitizeTweet c1)).length
      = (w.tweets.filter (fun r => r.text == sanitizeTweet c1)).length + 2 ∧
    (∀ (w2 : World) (now : Nat) (c : Text),
      (hasTweet w2 (sanitizeTweet c)).1 = true →
      postTweet now w2 c
        = (.ok (), w2, [Ev.tweetFind (sanitizeTweet (sanitizeTweet c))])) := by
  refine ⟨?_, ?_, ?_, ?_⟩
  · simp [storeTweet, hok]
  · simp [storeTweet, hok]
  · simp [storeTweet, hok, hsan, List.filter_append]
  · intro w2 now c hfound
    have hmf : w2.mongoFail = false := by
      cases hmf : w2.mongoFail with
      | false => rfl
      | true => simp [hasTweet, hmf] at hfound
    have hany : w2.tweets.any
        (fun r => r.text == sanitizeTweet (sanitizeTweet c)) = true := by
      simp only [hasTweet, hmf, Bool.false_eq_true, if_false] at hfound
      exact hfound
    simp [postTweet, hasTweet, hmf, hany]

/-- Witness for `storeTweet_plain_insert`: two concrete inserts that
normalize to the same row, and a `postTweet` that is skipped by the
guard. -/
theorem storeTweet_plain_insert_witness :
    ((storeTweet 1 (storeTweet 0 emptyWorld (str "Hello")).2.1
        (str "HELLO")).2.1.tweets.filter
      (fun r => r.text == sanitizeTweet (str "Hello"))).length
      = (emptyWorld.tweets.filter
          (fun r => r.text == sanitizeTweet (str "Hello"))).length + 2 ∧
    postTweet 5 preEmittedWorld (str " Hello ")
      = (.ok (), preEmittedWorld,
         [Ev.tweetFind (sanitizeTweet (sanitizeTweet (str " Hello ")))]) :=
  ⟨(storeTweet_plain_insert emptyWorld (str "Hello") (str "HELLO") 0 1 rfl
      (by decide)).2.2.1,
   (storeTweet_plain_insert emptyWorld (str "Hello") (str "HELLO") 0 1 rfl
      (by decide)).2.2.2 preEmittedWorld 5 (str " Hello ") (by decide)⟩

end AiTwitterBase
